import Mathlib

/-!
Shallow embedding of the `recoup` Django application (dbca-wa/scrooge,
`src/recoup/models.py` and `src/recoup/admin.py`).

Modelling choices:
* Django `DecimalField` values are modelled as `ℚ`.  Where Python `decimal`
  arithmetic is exact at the realizable magnitudes (the bill × percentage
  products, the field sums, the two-decimal-place additions) the operations
  are plain rational arithmetic; the `Division` apportionment divides and
  multiplies arbitrary quotients, so there the default context's correct
  rounding to 28 significant digits is modelled explicitly (`roundSig28`).
* `round(x, 2)` on Python decimals rounds half to even; `roundHalfEven2` below.
* The database is an explicit record of row lists; `save()` is a state
  transition: the `pre_save` signal hook runs before the row is written and
  the `post_save` hook after (see `pre_save_hook` / `post_save_hook` in
  models.py, which dispatch to a model's `pre_save` / `post_save` method when
  it exists).
* Python exceptions (`AttributeError` on `None`, `decimal.DivisionByZero`,
  `decimal.InvalidOperation`) are modelled with `Except PyError`.
* Character/date display fields that enter no computation are kept only
  where a claim needs them; foreign keys are `Nat` ids.
-/

namespace Recoup

/-- Python `round(q, 2)` for exact decimal values: round half to even at two
decimal places. -/
def roundHalfEven2 (q : ℚ) : ℚ :=
  let x : ℚ := q * 100
  let f : ℤ := ⌊x⌋
  let r : ℚ := x - (f : ℚ)
  let n : ℤ :=
    if r < 1 / 2 then f
    else if 1 / 2 < r then f + 1
    else if f % 2 = 0 then f else f + 1
  (n : ℚ) / 100

/-- models.py `field_sum`: `queryset.aggregate(Sum(field)) or Decimal(0)` —
the SQL sum of a field over the rows, with the empty/NULL case coalesced
to 0. -/
def field_sum (values : List ℚ) : ℚ :=
  values.sum

/-- `FinancialYear` rows (dates encoded as day numbers; `end` is a Lean
keyword, hence `fy_end`). Meta ordering is `("end",)`. -/
structure FinancialYearR where
  id : Nat
  start : Nat
  fy_end : Nat
deriving DecidableEq, Repr

/-- `Bill` rows. -/
structure BillR where
  id : Nat
  contract : Nat
  name : String
  year : Nat
  cost : ℚ
  cost_estimate : ℚ
  active : Bool
deriving DecidableEq, Repr

/-- Which concrete subtype (multi-table inheritance) a `Cost` row belongs
to: `EndUserCost` (with its `service` FK), `ITPlatformCost` (with its
`platform` FK), or a plain `Cost` row. -/
inductive CostKind where
  | endUser (service : Nat)
  | itPlatform (platform : Nat)
  | plain
deriving DecidableEq, Repr

def CostKind.isEndUser : CostKind → Bool
  | .endUser _ => true
  | _ => false

def CostKind.isITPlatform : CostKind → Bool
  | .itPlatform _ => true
  | _ => false

/-- `Cost` rows (common fields of `EndUserCost` / `ITPlatformCost`). -/
structure CostR where
  id : Nat
  name : String
  bill : Nat
  percentage : ℚ
  service_pool : Nat
  cost : ℚ
  cost_estimate : ℚ
  kind : CostKind
deriving DecidableEq, Repr

/-- `Division` rows. -/
structure DivisionR where
  id : Nat
  name : String
  user_count : Nat
  cc_count : Nat
  system_count : Nat
deriving DecidableEq, Repr

/-- `EndUserService` rows; the `divisions` many-to-many is a separate link
table in the state. -/
structure EndUserServiceR where
  id : Nat
  name : String
deriving DecidableEq, Repr

/-- `Platform` rows. -/
structure PlatformR where
  id : Nat
  name : String
  system_count : Nat
deriving DecidableEq, Repr

/-- `SystemDependency` rows (the float `weighting` takes part in no
computation and is omitted). -/
structure SystemDependencyR where
  id : Nat
  system : Nat
  platform : Nat
deriving DecidableEq, Repr

/-- The database state: one list of rows per table, plus the
`EndUserService.divisions` many-to-many link table as
(service id, division id) pairs. -/
structure DB where
  years : List FinancialYearR
  bills : List BillR
  costs : List CostR
  divisions : List DivisionR
  services : List EndUserServiceR
  service_links : List (Nat × Nat)
  platforms : List PlatformR
  deps : List SystemDependencyR
deriving DecidableEq, Repr

/-- SQL write of a row: UPDATE when a row with the same primary key exists
(every stored row with that id is overwritten), INSERT otherwise. -/
def upsertBy {α : Type} (idOf : α → Nat) (x : α) (l : List α) : List α :=
  if l.any (fun y => idOf y == idOf x) then
    l.map (fun y => if idOf y == idOf x then x else y)
  else l ++ [x]

/-- `Cost.pre_save` (models.py:139-143), verbatim control flow:

    if not self.bill.active:
        self.cost, self.cost_estimate = 0, 0
    self.cost = self.bill.cost * self.percentage / Decimal(100)
    self.cost_estimate = self.bill.cost_estimate * self.percentage / Decimal(100)

Note the two final assignments are unconditional. -/
def Cost.pre_save (b : BillR) (c : CostR) : CostR :=
  let c1 := if ¬ b.active then { c with cost := 0, cost_estimate := 0 } else c
  let c2 := { c1 with cost := b.cost * c1.percentage / 100 }
  { c2 with cost_estimate := b.cost_estimate * c2.percentage / 100 }

theorem pre_save_eq (b : BillR) (c : CostR) :
    Cost.pre_save b c =
      { c with cost := b.cost * c.percentage / 100,
               cost_estimate := b.cost_estimate * c.percentage / 100 } := by
  unfold Cost.pre_save
  by_cases h : b.active <;> simp [h]

/-- `bill = Bill.objects.get(pk=i)` on the bills table. -/
def findBill (db : DB) (i : Nat) : Option BillR :=
  db.bills.find? (fun b => b.id == i)

/-- Saving a `Cost` row: the `pre_save` hook recomputes the derived fields
from the owning bill, then the row is written.  (A dangling `bill` FK would
raise in Django before any write; modelled as no write.) -/
def saveCost (db : DB) (c : CostR) : DB :=
  match findBill db c.bill with
  | none => db
  | some b => { db with costs := upsertBy (fun x => x.id) (Cost.pre_save b c) db.costs }

/-- `Bill.post_save` (models.py:111-117): re-save every `EndUserCost` and
every `ITPlatformCost` row whose `bill` FK is this bill. -/
def Bill.post_save (db : DB) (b : BillR) : DB :=
  let db1 := (db.costs.filter
      (fun c => c.bill == b.id && c.kind.isEndUser)).foldl saveCost db
  (db1.costs.filter
      (fun c => c.bill == b.id && c.kind.isITPlatform)).foldl saveCost db1

/-- Saving a `Bill`: the row is written (Bill has no `pre_save` method),
then the `post_save` hook cascades to the dependent cost rows. -/
def saveBill (db : DB) (b : BillR) : DB :=
  let db1 := { db with bills := upsertBy (fun x => x.id) b db.bills }
  Bill.post_save db1 b

/-- `FinancialYear.get_cost_queryset` is `self.bill_set.all()`: the bills
whose `year` FK is this year. -/
def FinancialYear.bill_set (db : DB) (fy : FinancialYearR) : List BillR :=
  db.bills.filter (fun b => b.year == fy.id)

/-- `CostSummary.cost` specialised to `FinancialYear`: `field_sum` of `cost`
over the year's bills. -/
def FinancialYear.cost (db : DB) (fy : FinancialYearR) : ℚ :=
  field_sum ((FinancialYear.bill_set db fy).map (fun b => b.cost))

/-- `CostSummary.cost_estimate` specialised to `FinancialYear`. -/
def FinancialYear.cost_estimate (db : DB) (fy : FinancialYearR) : ℚ :=
  field_sum ((FinancialYear.bill_set db fy).map (fun b => b.cost_estimate))

/-- Python exceptions the embedded code can raise. -/
inductive PyError where
  | attributeError
  | divisionByZero
  | invalidOperation
deriving DecidableEq, Repr

/-- `CostSummary.year`: `FinancialYear.objects.first()` — the first row
under the model's default ordering `("end",)`, i.e. the first row of
minimal `end`; `none` when the table is empty. -/
def CostSummary.year (db : DB) : Option FinancialYearR :=
  db.years.argmin (fun fy => fy.fy_end)

/-- `CostSummary.cost_percentage` (models.py:38-42).  `self.cost()` depends
on the concrete subclass's queryset and is passed in as `selfCost`.  When no
`FinancialYear` row exists, `self.year` is `None` and `self.year.cost()`
raises `AttributeError`. -/
def CostSummary.cost_percentage (db : DB) (selfCost : ℚ) : Except PyError ℚ :=
  match CostSummary.year db with
  | none => .error .attributeError
  | some fy =>
      let year_cost := FinancialYear.cost db fy
      if year_cost = 0 then .ok 0
      else .ok (roundHalfEven2 (selfCost / year_cost * 100))

/-- `CostSummary.cost_estimate_percentage` (models.py:46-50). -/
def CostSummary.cost_estimate_percentage (db : DB) (selfEstimate : ℚ) :
    Except PyError ℚ :=
  match CostSummary.year db with
  | none => .error .attributeError
  | some fy =>
      let year_cost_est := FinancialYear.cost_estimate db fy
      if year_cost_est = 0 then .ok 0
      else .ok (roundHalfEven2 (selfEstimate / year_cost_est * 100))

/-- `EndUserService.divisions.all()`: divisions linked through the
many-to-many table. -/
def EndUserService.divisions (db : DB) (s : EndUserServiceR) : List DivisionR :=
  db.divisions.filter (fun d => db.service_links.contains (s.id, d.id))

/-- `EndUserService.total_user_count` (models.py:188-189):
`field_sum(self.divisions, "user_count")`. -/
def EndUserService.total_user_count (db : DB) (s : EndUserServiceR) : Nat :=
  ((EndUserService.divisions db s).map (fun d => d.user_count)).sum

/-- `CostSummary.cost` specialised to `EndUserService`: sum of `cost` over
`self.endusercost_set.all()`. -/
def EndUserService.cost (db : DB) (s : EndUserServiceR) : ℚ :=
  field_sum ((db.costs.filter
      (fun c => c.kind == CostKind.endUser s.id)).map (fun c => c.cost))

/-- `CostSummary.cost_estimate` specialised to `EndUserService`. -/
def EndUserService.cost_estimate (db : DB) (s : EndUserServiceR) : ℚ :=
  field_sum ((db.costs.filter
      (fun c => c.kind == CostKind.endUser s.id)).map (fun c => c.cost_estimate))

/-- `self.enduserservice_set.all()` for a Division: services linked through
the many-to-many table. -/
def Division.enduserservice_set (db : DB) (d : DivisionR) : List EndUserServiceR :=
  db.services.filter (fun s => db.service_links.contains (s.id, d.id))

/-- Round a rational to the nearest integer, half to even — the rounding
mode (`ROUND_HALF_EVEN`) of Python decimal's default context. -/
def halfEvenInt (x : ℚ) : ℤ :=
  let f : ℤ := ⌊x⌋
  let r : ℚ := x - (f : ℚ)
  if r < 1 / 2 then f
  else if 1 / 2 < r then f + 1
  else if f % 2 = 0 then f else f + 1

/-- Adjusted exponent of a rational: for `q ≠ 0` the unique `a` with
`10 ^ a ≤ |q| < 10 ^ (a + 1)`, computed from the digit counts of the
numerator and denominator. -/
def adjExpQ (q : ℚ) : ℤ :=
  let a0 : ℤ := (Nat.log 10 q.num.natAbs : ℤ) - (Nat.log 10 q.den : ℤ)
  if (10 : ℚ) ^ a0 ≤ |q| then a0 else a0 - 1

/-- Python decimal context rounding under the default context (precision
28, `ROUND_HALF_EVEN`): the exact value correctly rounded to 28
significant digits.  A value already representable in at most 28
significant digits is returned unchanged. -/
def roundSig28 (q : ℚ) : ℚ :=
  if q = 0 then 0
  else (halfEvenInt (q / 10 ^ (adjExpQ q - 27)) : ℚ) * 10 ^ (adjExpQ q - 27)

/-- Python `Decimal` division under the default context: dividing by zero
raises (`DivisionByZero`, or `InvalidOperation` for 0/0) rather than
producing NaN or infinity; otherwise the exact quotient is correctly
rounded to the context's 28 significant digits. -/
def decimalDiv (num den : ℚ) : Except PyError ℚ :=
  if den = 0 then
    if num = 0 then .error .invalidOperation else .error .divisionByZero
  else .ok (roundSig28 (num / den))

/-- Python `Decimal` multiplication under the default context: the exact
product correctly rounded to 28 significant digits. -/
def decimalMul (x y : ℚ) : ℚ :=
  roundSig28 (x * y)

/-- `Division.enduser_cost` (models.py:157-161): over each linked service,
accumulate `round(Decimal(user_count) / Decimal(total_user_count) * cost, 2)`.
The division is unguarded in the source, so a service with zero total user
count raises; the quotient and the product each carry the default decimal
context's rounding to 28 significant digits.  (The accumulating addition of
two-decimal-place values stays exact at these magnitudes.) -/
def Division.enduser_cost (db : DB) (d : DivisionR) : Except PyError ℚ :=
  (Division.enduserservice_set db d).foldlM
    (fun total s => do
      let q ← decimalDiv (d.user_count : ℚ) ((EndUserService.total_user_count db s : ℚ))
      pure (total + roundHalfEven2 (decimalMul q (EndUserService.cost db s))))
    (0 : ℚ)

/-- `Division.enduser_estimate` (models.py:163-167). -/
def Division.enduser_estimate (db : DB) (d : DivisionR) : Except PyError ℚ :=
  (Division.enduserservice_set db d).foldlM
    (fun total s => do
      let q ← decimalDiv (d.user_count : ℚ) ((EndUserService.total_user_count db s : ℚ))
      pure (total + roundHalfEven2 (decimalMul q (EndUserService.cost_estimate db s))))
    (0 : ℚ)

/-- `Division.cost` (models.py:169-170). -/
def Division.cost (db : DB) (d : DivisionR) : Except PyError ℚ :=
  Division.enduser_cost db d

/-- `Division.cost_estimate` (models.py:172-173). -/
def Division.cost_estimate (db : DB) (d : DivisionR) : Except PyError ℚ :=
  Division.enduser_estimate db d

/-- `self.cost_items.all()` for a Bill: the `Cost` rows (any subtype) whose
`bill` FK is this bill. -/
def Bill.cost_items (db : DB) (b : BillR) : List CostR :=
  db.costs.filter (fun c => c.bill == b.id)

/-- `Bill.allocated` (models.py:108-109):
`field_sum(self.cost_items.all(), "percentage") or 0`. -/
def Bill.allocated (db : DB) (b : BillR) : ℚ :=
  field_sum ((Bill.cost_items db b).map (fun c => c.percentage))

/-- The SQL aggregate `Sum("cost_items__percentage")` annotated on a bill by
`AllocatedListFilter.queryset` (admin.py:40): NULL (`none`) when the bill
has no cost rows. -/
def percentageSumAnnotated (db : DB) (b : BillR) : Option ℚ :=
  match Bill.cost_items db b with
  | [] => none
  | items => some (field_sum (items.map (fun c => c.percentage)))

/-- `AllocatedListFilter` value `'0'` (label "None", admin.py:41-42):
`qs.exclude(cost_items__percentage__gt=0)` — keep bills with no cost row of
positive percentage. -/
def AllocatedListFilter.selectNone (db : DB) (b : BillR) : Bool :=
  !(Bill.cost_items db b).any (fun c => decide (0 < c.percentage))

/-- `AllocatedListFilter` value `'lt_100'` (label "Partially",
admin.py:43-44): annotated sum strictly between 0 and 100 (a NULL
annotation matches neither comparison). -/
def AllocatedListFilter.selectPartially (db : DB) (b : BillR) : Bool :=
  match percentageSumAnnotated db b with
  | none => false
  | some s => decide (s < 100) && decide (0 < s)

/-- `AllocatedListFilter` value `'100'` (label "100%", admin.py:45-46). -/
def AllocatedListFilter.select100 (db : DB) (b : BillR) : Bool :=
  match percentageSumAnnotated db b with
  | none => false
  | some s => decide (s = 100)

/-- `AllocatedListFilter` value `'gt_100'` (label "Over allocated",
admin.py:47-48). -/
def AllocatedListFilter.selectOver (db : DB) (b : BillR) : Bool :=
  match percentageSumAnnotated db b with
  | none => false
  | some s => decide (100 < s)

/-- `SystemDependency.post_save` (models.py:237-239): recount the rows of
`self.platform.systemdependency_set` and persist the platform.  (`Platform`
defines no save hooks of its own.) -/
def SystemDependency.post_save (db : DB) (dep : SystemDependencyR) : DB :=
  match db.platforms.find? (fun p => p.id == dep.platform) with
  | none => db
  | some p =>
      let p1 := { p with
        system_count := (db.deps.filter (fun x => x.platform == p.id)).length }
      { db with platforms := upsertBy (fun x => x.id) p1 db.platforms }

/-- Saving a `SystemDependency` row (create or update): the row is written,
then the `post_save` hook recounts the platform. -/
def saveSystemDependency (db : DB) (dep : SystemDependencyR) : DB :=
  let db1 := { db with deps := upsertBy (fun x => x.id) dep db.deps }
  SystemDependency.post_save db1 dep

/-- Spec-side formula for `Division.cost` (claim C5's wording): the sum over
every linked `EndUserService` of the rounded proportional share. -/
def divisionCostSpec (db : DB) (d : DivisionR) : ℚ :=
  ((Division.enduserservice_set db d).map
    (fun s => roundHalfEven2
      ((d.user_count : ℚ) / (EndUserService.total_user_count db s : ℚ) *
        EndUserService.cost db s))).sum

/-- Spec-side formula for `Division.cost_estimate` (claim C5's wording). -/
def divisionEstimateSpec (db : DB) (d : DivisionR) : ℚ :=
  ((Division.enduserservice_set db d).map
    (fun s => roundHalfEven2
      ((d.user_count : ℚ) / (EndUserService.total_user_count db s : ℚ) *
        EndUserService.cost_estimate db s))).sum

/-- The per-service shares `Division.enduser_cost` actually computes:
context-rounded quotient, context-rounded product, rounded to two places
and summed. -/
def divisionCostDecimal (db : DB) (d : DivisionR) : ℚ :=
  ((Division.enduserservice_set db d).map
    (fun s => roundHalfEven2 (decimalMul
      (roundSig28 ((d.user_count : ℚ) / (EndUserService.total_user_count db s : ℚ)))
      (EndUserService.cost db s)))).sum

/-- The per-service shares `Division.enduser_estimate` actually computes. -/
def divisionEstimateDecimal (db : DB) (d : DivisionR) : ℚ :=
  ((Division.enduserservice_set db d).map
    (fun s => roundHalfEven2 (decimalMul
      (roundSig28 ((d.user_count : ℚ) / (EndUserService.total_user_count db s : ℚ)))
      (EndUserService.cost_estimate db s)))).sum

/-! ### Infrastructure lemmas about the embedded write paths -/

theorem find?_map_replace {α : Type} (idOf : α → Nat) (x : α) :
    ∀ l : List α, l.any (fun y => idOf y == idOf x) = true →
      (l.map (fun y => if idOf y == idOf x then x else y)).find?
        (fun y => idOf y == idOf x) = some x := by
  intro l hl
  induction l with
  | nil => simp at hl
  | cons a t ih =>
      by_cases ha : (idOf a == idOf x) = true
      · simp [List.find?, ha]
      · simp only [List.any_cons, Bool.or_eq_true] at hl
        rcases hl with hl | hl
        · exact absurd hl ha
        · simp only [List.map_cons, ha, if_false]
          rw [List.find?_cons_of_neg _ (by simp [ha]), ih hl]

theorem upsertBy_find {α : Type} (idOf : α → Nat) (x : α) (l : List α) :
    (upsertBy idOf x l).find? (fun y => idOf y == idOf x) = some x := by
  unfold upsertBy
  by_cases h : l.any (fun y => idOf y == idOf x) = true
  · rw [if_pos h]
    exact find?_map_replace idOf x l h
  · rw [if_neg h, List.find?_append]
    have hnone : l.find? (fun y => idOf y == idOf x) = none := by
      rw [List.find?_eq_none]
      intro y hy hbeq
      exact h (List.any_eq_true.mpr ⟨y, hy, hbeq⟩)
    simp [hnone]

theorem mem_upsertBy {α : Type} {idOf : α → Nat} {x y : α} {l : List α}
    (h : y ∈ upsertBy idOf x l) :
    y = x ∨ (y ∈ l ∧ (idOf y == idOf x) = false) := by
  unfold upsertBy at h
  by_cases hany : l.any (fun z => idOf z == idOf x) = true
  · rw [if_pos hany] at h
    rcases List.mem_map.mp h with ⟨z, hz, hmap⟩
    by_cases hzx : (idOf z == idOf x) = true
    · left; rw [← hmap, if_pos hzx]
    · right
      rw [← hmap, if_neg hzx]
      exact ⟨hz, Bool.eq_false_iff.mpr hzx⟩
  · rw [if_neg hany] at h
    rcases List.mem_append.mp h with h | h
    · right
      refine ⟨h, ?_⟩
      exact Bool.eq_false_iff.mpr (List.any_eq_false.mp (Bool.eq_false_iff.mpr hany) y h)
    · left; simpa using h

theorem mem_upsertBy_self {α : Type} (idOf : α → Nat) (x : α) (l : List α) :
    x ∈ upsertBy idOf x l := by
  unfold upsertBy
  by_cases hany : l.any (fun z => idOf z == idOf x) = true
  · rw [if_pos hany]
    rcases List.any_eq_true.mp hany with ⟨z, hz, hbeq⟩
    exact List.mem_map.mpr ⟨z, hz, by rw [if_pos hbeq]⟩
  · rw [if_neg hany]
    exact List.mem_append.mpr (Or.inr (List.mem_singleton.mpr rfl))

theorem upsertBy_eq_self {α : Type} {idOf : α → Nat} {x : α} {l : List α}
    (hx : x ∈ l) (hn : (l.map idOf).Nodup) : upsertBy idOf x l = l := by
  unfold upsertBy
  rw [if_pos (List.any_eq_true.mpr ⟨x, hx, by simp⟩)]
  have : ∀ a ∈ l, (if idOf a == idOf x then x else a) = a := by
    intro a ha
    by_cases hax : (idOf a == idOf x) = true
    · rw [if_pos hax]
      exact (List.inj_on_of_nodup_map hn ha hx (by simpa using hax)).symm
    · rw [if_neg hax]
  rw [List.map_congr_left this]
  exact List.map_id l

theorem upsertBy_map_id {α : Type} (idOf : α → Nat) (x : α) (l : List α)
    (h : l.any (fun y => idOf y == idOf x) = true) :
    (upsertBy idOf x l).map idOf = l.map idOf := by
  unfold upsertBy
  rw [if_pos h, List.map_map]
  refine List.map_congr_left ?_
  intro a _
  by_cases hax : (idOf a == idOf x) = true
  · simp only [Function.comp, hax, if_pos]
    exact (beq_iff_eq.mp hax).symm
  · simp [Function.comp, hax]

theorem saveCost_bills (db : DB) (c : CostR) : (saveCost db c).bills = db.bills := by
  unfold saveCost
  cases findBill db c.bill <;> rfl

theorem foldl_saveCost_bills (S : List CostR) :
    ∀ db : DB, (S.foldl saveCost db).bills = db.bills := by
  induction S with
  | nil => intro db; rfl
  | cons c t ih =>
      intro db
      rw [List.foldl_cons, ih, saveCost_bills]

theorem findBill_foldl_saveCost (S : List CostR) (db : DB) (i : Nat) :
    findBill (S.foldl saveCost db) i = findBill db i := by
  unfold findBill
  rw [foldl_saveCost_bills]

theorem pre_save_id (b : BillR) (c : CostR) : (Cost.pre_save b c).id = c.id := by
  rw [pre_save_eq]

theorem pre_save_percentage (b : BillR) (c : CostR) :
    (Cost.pre_save b c).percentage = c.percentage := by
  rw [pre_save_eq]

theorem mem_foldl_saveCost {b : BillR} :
    ∀ (S : List CostR) (db : DB),
      (∀ c ∈ S, findBill db c.bill = some b) →
      ∀ c' ∈ (S.foldl saveCost db).costs,
        (∃ c ∈ S, c' = Cost.pre_save b c) ∨
        (c' ∈ db.costs ∧ ∀ c ∈ S, c'.id ≠ c.id) := by
  intro S
  induction S with
  | nil =>
      intro db _ c' hc'
      exact Or.inr ⟨hc', by intro c hc; simp at hc⟩
  | cons c t ih =>
      intro db hfind c' hc'
      have hc : findBill db c.bill = some b := hfind c (List.mem_cons_self c t)
      have hstep : saveCost db c =
          { db with costs := upsertBy (fun x => x.id) (Cost.pre_save b c) db.costs } := by
        unfold saveCost
        rw [hc]
      rw [List.foldl_cons] at hc'
      have hfind' : ∀ c2 ∈ t, findBill (saveCost db c) c2.bill = some b := by
        intro c2 hc2
        have : findBill (saveCost db c) c2.bill = findBill db c2.bill := by
          unfold findBill
          rw [saveCost_bills]
        rw [this]
        exact hfind c2 (List.mem_cons_of_mem c hc2)
      rcases ih (saveCost db c) hfind' c' hc' with ⟨c2, hc2, he⟩ | ⟨hmem, hne⟩
      · exact Or.inl ⟨c2, List.mem_cons_of_mem c hc2, he⟩
      · rw [hstep] at hmem
        rcases mem_upsertBy hmem with he | ⟨hmem0, hbeq⟩
        · exact Or.inl ⟨c, List.mem_cons_self c t, he⟩
        · refine Or.inr ⟨hmem0, ?_⟩
          intro c2 hc2
          rcases List.mem_cons.mp hc2 with rfl | hc2
          · have : c'.id ≠ (Cost.pre_save b c2).id := by
              intro hcontra
              rw [hcontra] at hbeq
              simp at hbeq
            rw [pre_save_id] at this
            exact this
          · exact hne c2 hc2

theorem post_save_mem_shape {db : DB} {b : BillR}
    (hb : findBill db b.id = some b) :
    ∀ c' ∈ (Bill.post_save db b).costs,
      c'.bill = b.id →
      (c'.kind.isEndUser = true ∨ c'.kind.isITPlatform = true) →
      ∃ c, c' = Cost.pre_save b c := by
  intro c' hc' hbill hkind
  unfold Bill.post_save at hc'
  set pEU := fun c : CostR => c.bill == b.id && c.kind.isEndUser with hpEU
  set pIP := fun c : CostR => c.bill == b.id && c.kind.isITPlatform with hpIP
  set S1 := db.costs.filter pEU with hS1
  set db2 := S1.foldl saveCost db with hdb2
  set S2 := db2.costs.filter pIP with hS2
  have hfind1 : ∀ c ∈ S1, findBill db c.bill = some b := by
    intro c hc
    have hp := (List.mem_filter.mp hc).2
    rw [hpEU] at hp
    have : c.bill = b.id := by
      have := (Bool.and_eq_true _ _).mp hp
      exact beq_iff_eq.mp this.1
    rw [this]
    exact hb
  have hbills2 : findBill db2 b.id = some b := by
    rw [hdb2, findBill_foldl_saveCost]
    exact hb
  have hfind2 : ∀ c ∈ S2, findBill db2 c.bill = some b := by
    intro c hc
    have hp := (List.mem_filter.mp hc).2
    rw [hpIP] at hp
    have : c.bill = b.id := by
      have := (Bool.and_eq_true _ _).mp hp
      exact beq_iff_eq.mp this.1
    rw [this]
    exact hbills2
  rcases mem_foldl_saveCost S2 db2 hfind2 c' hc' with ⟨c, _, he⟩ | ⟨hmem2, hne2⟩
  · exact ⟨c, he⟩
  · rcases hkind with hk | hk
    · -- an EndUserCost row: it cannot have survived the first fold untouched
      rcases mem_foldl_saveCost S1 db hfind1 c' hmem2 with ⟨c, _, he⟩ | ⟨hmem1, hne1⟩
      · exact ⟨c, he⟩
      · exfalso
        have hin : c' ∈ S1 := by
          rw [hS1]
          exact List.mem_filter.mpr ⟨hmem1, by simp [hpEU, hbill, hk]⟩
        exact hne1 c' hin rfl
    · exfalso
      have : c' ∈ S2 := by
        rw [hS2]
        exact List.mem_filter.mpr ⟨hmem2, by simp [hpIP, hbill, hk]⟩
      exact hne2 c' this rfl

/-! ### Claim theorems -/

/-- C1 (code bug evidence): the claim says an inactive bill's cost rows
derive `cost = 0` and `cost_estimate = 0`, and the zeroing branch at
models.py:140-141 shows the same intent, but the unconditional assignments
at models.py:142-143 immediately overwrite it.  For an inactive bill with
`cost = 100`, `cost_estimate = 200` and a cost row at `percentage = 50`,
`pre_save` leaves `cost = 50` and `cost_estimate = 100`, not `0`. -/
theorem cost_pre_save_inactive_bill_not_zeroed :
    (BillR.mk 1 1 "svc" 1 100 200 false).active = false ∧
    (Cost.pre_save (BillR.mk 1 1 "svc" 1 100 200 false)
        (CostR.mk 10 "c" 1 50 1 0 0 CostKind.plain)).cost = 50 ∧
    (Cost.pre_save (BillR.mk 1 1 "svc" 1 100 200 false)
        (CostR.mk 10 "c" 1 50 1 0 0 CostKind.plain)).cost_estimate = 100 := by
  refine ⟨rfl, ?_, ?_⟩ <;>
    · rw [pre_save_eq]
      norm_num

/-- C10: when no `FinancialYear` row exists, `CostSummary.year` is `None`
and both percentage methods raise (`AttributeError` on `None.cost()`)
instead of returning 0; the zero-denominator guard is reached only when a
year row exists. -/
theorem percentage_requires_financial_year (db : DB) (x : ℚ)
    (h : db.years = []) :
    CostSummary.year db = none ∧
    CostSummary.cost_percentage db x = .error .attributeError ∧
    CostSummary.cost_estimate_percentage db x = .error .attributeError := by
  have hy : CostSummary.year db = none := by
    unfold CostSummary.year
    rw [h]
    rfl
  refine ⟨hy, ?_, ?_⟩
  · unfold CostSummary.cost_percentage
    rw [hy]
  · unfold CostSummary.cost_estimate_percentage
    rw [hy]

def dbC10 : DB := ⟨[], [], [], [], [], [], [], []⟩

theorem percentage_requires_financial_year_witness :
    CostSummary.cost_percentage dbC10 7 = .error .attributeError :=
  (percentage_requires_financial_year dbC10 7 rfl).2.1

/-- C9: the "current" `FinancialYear` is `FinancialYear.objects.first()`
under the default ordering `("end",)` — deterministically a stored year of
minimal end date whenever any year exists. -/
theorem current_year_is_earliest_ending (db : DB) (h : db.years ≠ []) :
    ∃ fy, CostSummary.year db = some fy ∧ fy ∈ db.years ∧
      ∀ y ∈ db.years, fy.fy_end ≤ y.fy_end := by
  unfold CostSummary.year
  cases hy : db.years.argmin (fun fy => fy.fy_end) with
  | none => exact absurd (List.argmin_eq_none.mp hy) h
  | some fy =>
      have hmem : fy ∈ db.years.argmin (fun fy => fy.fy_end) := hy
      exact ⟨fy, rfl, List.argmin_mem hmem,
        fun y hmy => List.le_of_mem_argmin hmy hmem⟩

def dbC9 : DB :=
  ⟨[FinancialYearR.mk 1 400 765, FinancialYearR.mk 2 35 400,
    FinancialYearR.mk 3 765 1130], [], [], [], [], [], [], []⟩

theorem current_year_is_earliest_ending_witness :
    dbC9.years ≠ [] ∧
    ∃ fy, CostSummary.year dbC9 = some fy ∧ fy ∈ dbC9.years ∧
      ∀ y ∈ dbC9.years, fy.fy_end ≤ y.fy_end :=
  ⟨by decide, current_year_is_earliest_ending dbC9 (by decide)⟩

/-- C4: immediately after any `SystemDependency` save, every stored
`Platform` row referenced by the saved dependency carries `system_count`
equal to the full re-count of `SystemDependency` rows referencing it (the
hook assigns `self.platform.systemdependency_set.count()`, not an
increment, so any stale value is corrected). -/
theorem system_count_matches_dependency_count (db : DB)
    (dep : SystemDependencyR) :
    ∀ p ∈ (saveSystemDependency db dep).platforms, p.id = dep.platform →
      p.system_count =
        ((saveSystemDependency db dep).deps.filter
          (fun x => x.platform == p.id)).length := by
  intro p hp hpid
  unfold saveSystemDependency SystemDependency.post_save at hp ⊢
  dsimp only at hp ⊢
  revert hp
  cases hf : db.platforms.find? (fun q => q.id == dep.platform) with
  | none =>
      intro hp
      dsimp only at hp
      exfalso
      have := List.find?_eq_none.mp hf p hp
      simp [hpid] at this
  | some p0 =>
      intro hp
      dsimp only at hp ⊢
      have hp0 : p0.id = dep.platform := by
        have := List.find?_some hf
        exact beq_iff_eq.mp this
      rcases mem_upsertBy hp with rfl | ⟨_, hbeq⟩
      · simp [hp0, hpid]
      · exfalso
        rw [hpid, ← hp0] at hbeq
        simp at hbeq

def dbC4 : DB :=
  ⟨[], [], [], [], [], [],
   [PlatformR.mk 1 "p" 5],
   [SystemDependencyR.mk 1 10 1]⟩

theorem system_count_matches_dependency_count_witness :
    PlatformR.mk 1 "p" 2 ∈
      (saveSystemDependency dbC4 (SystemDependencyR.mk 2 11 1)).platforms ∧
    (PlatformR.mk 1 "p" 2).system_count =
      ((saveSystemDependency dbC4 (SystemDependencyR.mk 2 11 1)).deps.filter
        (fun x => x.platform == (PlatformR.mk 1 "p" 2).id)).length :=
  ⟨by decide,
   system_count_matches_dependency_count dbC4 (SystemDependencyR.mk 2 11 1)
     (PlatformR.mk 1 "p" 2) (by decide) (by decide)⟩

/-- C3: with an existing reference `FinancialYear`, `cost_percentage`
returns 0 (no exception) when the year total is 0 and otherwise the ratio
rounded to two decimal places; `cost_estimate_percentage` analogously. -/
theorem cost_percentage_zero_guard (db : DB) (fy : FinancialYearR) (x : ℚ)
    (h : CostSummary.year db = some fy) :
    (FinancialYear.cost db fy = 0 → CostSummary.cost_percentage db x = .ok 0) ∧
    (FinancialYear.cost db fy ≠ 0 →
      CostSummary.cost_percentage db x =
        .ok (roundHalfEven2 (x / FinancialYear.cost db fy * 100))) ∧
    (FinancialYear.cost_estimate db fy = 0 →
      CostSummary.cost_estimate_percentage db x = .ok 0) ∧
    (FinancialYear.cost_estimate db fy ≠ 0 →
      CostSummary.cost_estimate_percentage db x =
        .ok (roundHalfEven2 (x / FinancialYear.cost_estimate db fy * 100))) := by
  unfold CostSummary.cost_percentage CostSummary.cost_estimate_percentage
  rw [h]
  refine ⟨?_, ?_, ?_, ?_⟩ <;> intro h0 <;> simp [h0]

def fyC3 : FinancialYearR := ⟨1, 0, 365⟩

def dbC3 : DB := ⟨[fyC3], [⟨1, 1, "b", 1, 20, 0, true⟩], [], [], [], [], [], []⟩

theorem cost_percentage_zero_guard_witness :
    CostSummary.year dbC3 = some fyC3 ∧
    CostSummary.cost_percentage dbC3 5 =
      .ok (roundHalfEven2 (5 / FinancialYear.cost dbC3 fyC3 * 100)) ∧
    CostSummary.cost_estimate_percentage dbC3 5 = .ok 0 := by
  have h : CostSummary.year dbC3 = some fyC3 := rfl
  have hc := cost_percentage_zero_guard dbC3 fyC3 5 h
  refine ⟨h, hc.2.1 ?_, hc.2.2.1 ?_⟩
  · norm_num [FinancialYear.cost, FinancialYear.bill_set, field_sum, dbC3, fyC3]
  · norm_num [FinancialYear.cost_estimate, FinancialYear.bill_set, field_sum,
      dbC3, fyC3]

theorem sum_eq_zero_iff_of_nonneg {l : List ℚ} (h : ∀ x ∈ l, 0 ≤ x) :
    l.sum = 0 ↔ ∀ x ∈ l, x = 0 := by
  induction l with
  | nil => simp
  | cons a t ih =>
      have ha : 0 ≤ a := h a (List.mem_cons_self a t)
      have ht : ∀ x ∈ t, 0 ≤ x := fun x hx => h x (List.mem_cons_of_mem a hx)
      have hts : 0 ≤ t.sum := List.sum_nonneg ht
      rw [List.sum_cons]
      constructor
      · intro h0
        have ha0 : a = 0 := le_antisymm (by linarith) ha
        have ht0 : t.sum = 0 := by linarith
        intro x hx
        rcases List.mem_cons.mp hx with rfl | hx
        · exact ha0
        · exact (ih ht).mp ht0 x hx
      · intro hall
        have h2 : t.sum = 0 :=
          (ih ht).mpr (fun x hx => hall x (List.mem_cons_of_mem a hx))
        rw [hall a (List.mem_cons_self a t), h2, add_zero]

/-- C7: `allocated()` is the sum of `percentage` over the bill's cost rows
(0 when there are none); with non-negative percentages (the field's
validators) the admin filter classifies exactly by that sum — 0 → "None",
strictly between 0 and 100 → "Partially", exactly 100 → "100%", above
100 → "Over allocated"; and the cost write path persists a row whatever
percentage it carries, so an over-allocating sum is never rejected, only
flagged. -/
theorem allocated_sum_and_classification (db : DB) (b : BillR)
    (hpos : ∀ c ∈ Bill.cost_items db b, 0 ≤ c.percentage) :
    Bill.allocated db b =
      ((Bill.cost_items db b).map (fun c => c.percentage)).sum ∧
    (AllocatedListFilter.selectNone db b = true ↔ Bill.allocated db b = 0) ∧
    (AllocatedListFilter.selectPartially db b = true ↔
      0 < Bill.allocated db b ∧ Bill.allocated db b < 100) ∧
    (AllocatedListFilter.select100 db b = true ↔ Bill.allocated db b = 100) ∧
    (AllocatedListFilter.selectOver db b = true ↔ 100 < Bill.allocated db b) ∧
    (∀ c : CostR, findBill db c.bill ≠ none →
      ∃ c' ∈ (saveCost db c).costs,
        c'.id = c.id ∧ c'.percentage = c.percentage) := by
  refine ⟨rfl, ?_, ?_, ?_, ?_, ?_⟩
  · have hm : ∀ x ∈ (Bill.cost_items db b).map (fun c => c.percentage), 0 ≤ x := by
      intro x hx
      rcases List.mem_map.mp hx with ⟨c, hc, rfl⟩
      exact hpos c hc
    unfold AllocatedListFilter.selectNone Bill.allocated field_sum
    rw [sum_eq_zero_iff_of_nonneg hm]
    simp only [Bool.not_eq_true', List.any_eq_false, decide_eq_true_eq,
      List.mem_map]
    constructor
    · rintro hno x ⟨c, hc, rfl⟩
      exact le_antisymm (not_lt.mp (hno c hc)) (hpos c hc)
    · intro hz c hc
      rw [hz c.percentage ⟨c, hc, rfl⟩]
      exact lt_irrefl 0
  · unfold AllocatedListFilter.selectPartially percentageSumAnnotated
      Bill.allocated
    cases hitems : Bill.cost_items db b with
    | nil => simp [field_sum]
    | cons c t =>
        dsimp only
        simp only [Bool.and_eq_true, decide_eq_true_eq]
        constructor
        · rintro ⟨h1, h2⟩
          exact ⟨h2, h1⟩
        · rintro ⟨h1, h2⟩
          exact ⟨h2, h1⟩
  · unfold AllocatedListFilter.select100 percentageSumAnnotated Bill.allocated
    cases hitems : Bill.cost_items db b with
    | nil => simp [field_sum]
    | cons c t =>
        dsimp only
        simp only [decide_eq_true_eq]
  · unfold AllocatedListFilter.selectOver percentageSumAnnotated Bill.allocated
    cases hitems : Bill.cost_items db b with
    | nil => simp [field_sum]
    | cons c t =>
        dsimp only
        simp only [decide_eq_true_eq]
  · intro c hfind
    cases hf : findBill db c.bill with
    | none => exact absurd hf hfind
    | some b' =>
        refine ⟨Cost.pre_save b' c, ?_, pre_save_id b' c, pre_save_percentage b' c⟩
        unfold saveCost
        rw [hf]
        exact mem_upsertBy_self _ _ _

def billC7 : BillR := ⟨1, 1, "b", 1, 100, 0, true⟩

def dbC7 : DB :=
  ⟨[], [billC7],
   [⟨1, "c1", 1, 90, 1, 0, 0, CostKind.endUser 1⟩,
    ⟨2, "c2", 1, 60, 1, 0, 0, CostKind.itPlatform 1⟩],
   [], [], [], [], []⟩

theorem allocated_sum_and_classification_witness :
    (∀ c ∈ Bill.cost_items dbC7 billC7, 0 ≤ c.percentage) ∧
    Bill.allocated dbC7 billC7 = 150 ∧
    AllocatedListFilter.selectOver dbC7 billC7 = true := by
  have hitems : Bill.cost_items dbC7 billC7 =
      [⟨1, "c1", 1, 90, 1, 0, 0, CostKind.endUser 1⟩,
       ⟨2, "c2", 1, 60, 1, 0, 0, CostKind.itPlatform 1⟩] := rfl
  have hpos : ∀ c ∈ Bill.cost_items dbC7 billC7, 0 ≤ c.percentage := by
    rw [hitems]
    intro c hc
    rcases List.mem_cons.mp hc with rfl | hc
    · norm_num
    rcases List.mem_cons.mp hc with rfl | hc
    · norm_num
    simp at hc
  have hsum : Bill.allocated dbC7 billC7 = 150 := by
    unfold Bill.allocated field_sum
    rw [hitems]
    norm_num
  have h := (allocated_sum_and_classification dbC7 billC7 hpos).2.2.2.2.1
  refine ⟨hpos, hsum, h.mpr ?_⟩
  rw [hsum]
  norm_num

theorem adjExpQ_abs (q : ℚ) : |q| = (q.num.natAbs : ℚ) / (q.den : ℚ) := by
  have hd : (0 : ℚ) < (q.den : ℚ) := by exact_mod_cast q.den_pos
  conv_lhs => rw [← Rat.num_div_den q]
  rw [abs_div, abs_of_pos hd, Int.cast_natAbs]
  push_cast
  ring

theorem adjExpQ_spec (q : ℚ) (hq : q ≠ 0) :
    (10 : ℚ) ^ adjExpQ q ≤ |q| ∧ |q| < 10 ^ (adjExpQ q + 1) := by
  have hnum : q.num.natAbs ≠ 0 := by
    simpa using Rat.num_ne_zero.mpr hq
  have hden : q.den ≠ 0 := q.den_nz
  have h1 : (10 : ℕ) ^ Nat.log 10 q.num.natAbs ≤ q.num.natAbs :=
    Nat.pow_log_le_self 10 hnum
  have h2 : q.num.natAbs < 10 ^ (Nat.log 10 q.num.natAbs + 1) :=
    Nat.lt_pow_succ_log_self (by norm_num) q.num.natAbs
  have h3 : (10 : ℕ) ^ Nat.log 10 q.den ≤ q.den := Nat.pow_log_le_self 10 hden
  have h4 : q.den < 10 ^ (Nat.log 10 q.den + 1) :=
    Nat.lt_pow_succ_log_self (by norm_num) q.den
  set k : ℤ := (Nat.log 10 q.num.natAbs : ℤ) with hk
  set m : ℤ := (Nat.log 10 q.den : ℤ) with hm
  have e1 : (10 : ℚ) ^ k ≤ (q.num.natAbs : ℚ) := by
    rw [hk, zpow_natCast]
    exact_mod_cast h1
  have e2 : (q.num.natAbs : ℚ) < 10 ^ (k + 1) := by
    rw [hk, show ((Nat.log 10 q.num.natAbs : ℤ) + 1) =
      ((Nat.log 10 q.num.natAbs + 1 : ℕ) : ℤ) by push_cast; ring, zpow_natCast]
    exact_mod_cast h2
  have e3 : (10 : ℚ) ^ m ≤ (q.den : ℚ) := by
    rw [hm, zpow_natCast]
    exact_mod_cast h3
  have e4 : (q.den : ℚ) < 10 ^ (m + 1) := by
    rw [hm, show ((Nat.log 10 q.den : ℤ) + 1) =
      ((Nat.log 10 q.den + 1 : ℕ) : ℤ) by push_cast; ring, zpow_natCast]
    exact_mod_cast h4
  have hdpos : (0 : ℚ) < (q.den : ℚ) := by exact_mod_cast q.den_pos
  have habs : |q| = (q.num.natAbs : ℚ) / (q.den : ℚ) := adjExpQ_abs q
  have hten : (0 : ℚ) < 10 := by norm_num
  have hlow : (10 : ℚ) ^ (k - m - 1) ≤ |q| := by
    rw [habs, le_div_iff hdpos]
    have hcalc : (10 : ℚ) ^ (k - m - 1) * (q.den : ℚ) < (q.num.natAbs : ℚ) := by
      calc (10 : ℚ) ^ (k - m - 1) * (q.den : ℚ)
          < 10 ^ (k - m - 1) * 10 ^ (m + 1) :=
            mul_lt_mul_of_pos_left e4 (zpow_pos hten _)
        _ = 10 ^ k := by
            rw [← zpow_add₀ (by norm_num : (10:ℚ) ≠ 0)]
            congr 1
            ring
        _ ≤ (q.num.natAbs : ℚ) := e1
    exact hcalc.le
  have hupp : |q| < (10 : ℚ) ^ (k - m + 1) := by
    rw [habs, div_lt_iff hdpos]
    calc (q.num.natAbs : ℚ) < 10 ^ (k + 1) := e2
      _ = 10 ^ (k - m + 1) * 10 ^ m := by
          rw [← zpow_add₀ (by norm_num : (10:ℚ) ≠ 0)]
          congr 1
          ring
      _ ≤ 10 ^ (k - m + 1) * (q.den : ℚ) :=
          mul_le_mul_of_nonneg_left e3 (zpow_pos hten _).le
  unfold adjExpQ
  by_cases hc : (10 : ℚ) ^ (k - m) ≤ |q|
  · rw [if_pos]
    · exact ⟨hc, hupp⟩
    · exact hc
  · rw [if_neg]
    · refine ⟨hlow, ?_⟩
      rw [show k - m - 1 + 1 = k - m by ring]
      exact lt_of_not_le hc
    · exact hc

theorem adjExpQ_unique (q : ℚ) (hq : q ≠ 0) (a : ℤ)
    (h1 : (10 : ℚ) ^ a ≤ |q|) (h2 : |q| < 10 ^ (a + 1)) : adjExpQ q = a := by
  obtain ⟨g1, g2⟩ := adjExpQ_spec q hq
  have ha1 : (10 : ℚ) ^ a < 10 ^ (adjExpQ q + 1) := lt_of_le_of_lt h1 g2
  have ha2 : (10 : ℚ) ^ adjExpQ q < 10 ^ (a + 1) := lt_of_le_of_lt g1 h2
  have hb1 := (zpow_lt_zpow_iff_right₀ (by norm_num : (1:ℚ) < 10)).mp ha1
  have hb2 := (zpow_lt_zpow_iff_right₀ (by norm_num : (1:ℚ) < 10)).mp ha2
  omega

theorem roundSig28_eval (q : ℚ) (a : ℤ) (n : ℕ) (hq : q ≠ 0)
    (h1 : (10 : ℚ) ^ a ≤ |q|) (h2 : |q| < 10 ^ (a + 1))
    (hn : a - 27 = -(n : ℤ)) :
    roundSig28 q = (halfEvenInt (q * 10 ^ n) : ℚ) / 10 ^ n := by
  unfold roundSig28
  rw [if_neg hq, adjExpQ_unique q hq a h1 h2, hn, zpow_neg, zpow_natCast,
    div_inv_eq_mul, ← div_eq_mul_inv]

theorem division_foldlM_ok (db : DB) (d : DivisionR) (g : EndUserServiceR → ℚ) :
    ∀ (L : List EndUserServiceR) (acc : ℚ),
      (∀ s ∈ L, (EndUserService.total_user_count db s : ℚ) ≠ 0) →
      L.foldlM (fun total s => do
          let q ← decimalDiv (d.user_count : ℚ)
            ((EndUserService.total_user_count db s : ℚ))
          pure (total + roundHalfEven2 (decimalMul q (g s)))) acc =
        Except.ok (acc + (L.map (fun s => roundHalfEven2 (decimalMul
          (roundSig28 ((d.user_count : ℚ) /
            (EndUserService.total_user_count db s : ℚ)))
          (g s)))).sum) := by
  intro L
  induction L with
  | nil =>
      intro acc _
      rw [List.foldlM_nil, List.map_nil, List.sum_nil, add_zero]
      rfl
  | cons s t ih =>
      intro acc hne
      have hs : (EndUserService.total_user_count db s : ℚ) ≠ 0 :=
        hne s (List.mem_cons_self s t)
      have hstep : decimalDiv (d.user_count : ℚ)
          ((EndUserService.total_user_count db s : ℚ)) =
          Except.ok (roundSig28 ((d.user_count : ℚ) /
            (EndUserService.total_user_count db s : ℚ))) := by
        unfold decimalDiv
        rw [if_neg hs]
      rw [List.foldlM_cons, hstep]
      show (t.foldlM _ _) = _
      rw [ih _ (fun x hx => hne x (List.mem_cons_of_mem s hx))]
      rw [List.map_cons, List.sum_cons, add_assoc]

/-- C5 (amended): with every linked service having a non-zero total user
count, `Division.cost` is the sum over the division's services of
`round(q × service cost, 2)` where `q` is `user_count / total_user_count`
as the program's `Decimal` division computes it — the exact quotient
correctly rounded to the default context's 28 significant digits — and the
product is likewise context-rounded; `cost_estimate` is the same with the
services' estimates.  (When the quotient is exactly representable, e.g.
50/200, this agrees with the exact formula, so the claim's 250.00 example
still holds — see the witness; at e.g. 1/6 × 0.03 it differs from the
exact-arithmetic formula by one cent — see the counterexample.) -/
theorem division_cost_is_decimal_apportioned_sum (db : DB) (d : DivisionR)
    (h : ∀ s ∈ Division.enduserservice_set db d,
      EndUserService.total_user_count db s ≠ 0) :
    Division.cost db d = .ok (divisionCostDecimal db d) ∧
    Division.cost_estimate db d = .ok (divisionEstimateDecimal db d) := by
  have h' : ∀ s ∈ Division.enduserservice_set db d,
      (EndUserService.total_user_count db s : ℚ) ≠ 0 := by
    intro s hs
    exact_mod_cast Nat.cast_ne_zero.mpr (h s hs)
  constructor
  · unfold Division.cost Division.enduser_cost
    rw [division_foldlM_ok db d (fun s => EndUserService.cost db s)
      (Division.enduserservice_set db d) 0 h']
    rw [zero_add]
    rfl
  · unfold Division.cost_estimate Division.enduser_estimate
    rw [division_foldlM_ok db d (fun s => EndUserService.cost_estimate db s)
      (Division.enduserservice_set db d) 0 h']
    rw [zero_add]
    rfl

def divC5 : DivisionR := ⟨1, "d1", 50, 0, 0⟩

def dbC5 : DB :=
  ⟨[], [],
   [⟨1, "c", 1, 100, 1, 1000, 0, CostKind.endUser 7⟩],
   [divC5, ⟨2, "d2", 150, 0, 0⟩],
   [⟨7, "s"⟩],
   [(7, 1), (7, 2)], [], []⟩

theorem division_cost_is_decimal_apportioned_sum_witness :
    (∀ s ∈ Division.enduserservice_set dbC5 divC5,
      EndUserService.total_user_count dbC5 s ≠ 0) ∧
    Division.cost dbC5 divC5 = .ok 250 := by
  have h : ∀ s ∈ Division.enduserservice_set dbC5 divC5,
      EndUserService.total_user_count dbC5 s ≠ 0 := by decide
  refine ⟨h, ?_⟩
  rw [(division_cost_is_decimal_apportioned_sum dbC5 divC5 h).1]
  have hset : Division.enduserservice_set dbC5 divC5 = [⟨7, "s"⟩] := rfl
  have htuc : EndUserService.total_user_count dbC5 ⟨7, "s"⟩ = 200 := by decide
  have hfil : dbC5.costs.filter
      (fun c => c.kind == CostKind.endUser (7 : Nat)) = dbC5.costs := rfl
  have hcost : EndUserService.cost dbC5 ⟨7, "s"⟩ = 1000 := by
    unfold EndUserService.cost
    rw [hfil]
    norm_num [field_sum, dbC5]
  have hq14 : roundSig28 ((1 : ℚ) / 4) = 1 / 4 := by
    rw [roundSig28_eval ((1 : ℚ) / 4) (-1) 28 (by norm_num)
      (by rw [abs_of_pos (show (0:ℚ) < 1/4 by norm_num)]; norm_num)
      (by rw [abs_of_pos (show (0:ℚ) < 1/4 by norm_num)]; norm_num)
      (by norm_num)]
    norm_num [halfEvenInt]
  have hm250 : decimalMul ((1 : ℚ) / 4) 1000 = 250 := by
    unfold decimalMul
    rw [show ((1 : ℚ) / 4) * 1000 = 250 by norm_num]
    rw [roundSig28_eval (250 : ℚ) 2 25 (by norm_num)
      (by rw [abs_of_pos (show (0:ℚ) < 250 by norm_num)]; norm_num)
      (by rw [abs_of_pos (show (0:ℚ) < 250 by norm_num)]; norm_num)
      (by norm_num)]
    norm_num [halfEvenInt]
  unfold divisionCostDecimal
  rw [hset, List.map_cons, List.map_nil, List.sum_cons, List.sum_nil, htuc,
    hcost]
  rw [show ((divC5.user_count : ℚ) / ((200 : ℕ) : ℚ)) = 1 / 4 by
    norm_num [divC5]]
  rw [hq14, hm250]
  norm_num [roundHalfEven2]

def divCx : DivisionR := ⟨1, "d", 1, 0, 0⟩

def dbCx : DB :=
  ⟨[], [],
   [⟨1, "c", 1, 1, 1, 3 / 100, 0, CostKind.endUser 4⟩],
   [divCx, ⟨2, "e", 5, 0, 0⟩],
   [⟨4, "s"⟩],
   [(4, 1), (4, 2)], [], []⟩

/-- C5 counterexample: at `user_count = 1`, `total_user_count = 6` and a
service cost of `0.03`, the program's `Decimal` division rounds the
quotient `1/6` up to 28 significant digits (…6667), so the product
`0.005000…0001` lies strictly above the two-place tie and
`Division.cost()` yields `0.01`, while the claim's exact-arithmetic
formula `round(1/6 × 0.03, 2) = round(0.005, 2)` rounds half-even to
`0.00` — the claimed equality fails. -/
theorem division_cost_exact_formula_counterexample :
    Division.cost dbCx divCx = .ok (1 / 100) ∧
    divisionCostSpec dbCx divCx = 0 ∧
    Division.cost dbCx divCx ≠ .ok (divisionCostSpec dbCx divCx) := by
  have hset : Division.enduserservice_set dbCx divCx = [⟨4, "s"⟩] := rfl
  have htuc : EndUserService.total_user_count dbCx ⟨4, "s"⟩ = 6 := by decide
  have hfil : dbCx.costs.filter
      (fun c => c.kind == CostKind.endUser (4 : Nat)) = dbCx.costs := rfl
  have hcost : EndUserService.cost dbCx ⟨4, "s"⟩ = 3 / 100 := by
    unfold EndUserService.cost
    rw [hfil]
    norm_num [field_sum, dbCx]
  have h6 : ∀ s ∈ Division.enduserservice_set dbCx divCx,
      (EndUserService.total_user_count dbCx s : ℚ) ≠ 0 := by
    intro s hs
    rw [hset] at hs
    rw [List.mem_singleton.mp hs, htuc]
    norm_num
  have hq16 : roundSig28 ((1 : ℚ) / 6) =
      1666666666666666666666666667 / 10 ^ 28 := by
    rw [roundSig28_eval ((1 : ℚ) / 6) (-1) 28 (by norm_num)
      (by rw [abs_of_pos (show (0:ℚ) < 1/6 by norm_num)]; norm_num)
      (by rw [abs_of_pos (show (0:ℚ) < 1/6 by norm_num)]; norm_num)
      (by norm_num)]
    norm_num [halfEvenInt]
  have hmx : decimalMul ((1666666666666666666666666667 : ℚ) / 10 ^ 28)
      (3 / 100) = 5000000000000000000000000001 / 10 ^ 30 := by
    unfold decimalMul
    rw [show ((1666666666666666666666666667 : ℚ) / 10 ^ 28) * (3 / 100) =
      5000000000000000000000000001 / 10 ^ 30 by norm_num]
    rw [roundSig28_eval ((5000000000000000000000000001 : ℚ) / 10 ^ 30) (-3) 30
      (by norm_num)
      (by rw [abs_of_pos (show (0:ℚ) <
          5000000000000000000000000001 / 10 ^ 30 by norm_num)]
          norm_num)
      (by rw [abs_of_pos (show (0:ℚ) <
          5000000000000000000000000001 / 10 ^ 30 by norm_num)]
          norm_num)
      (by norm_num)]
    norm_num [halfEvenInt]
  have hr2 : roundHalfEven2 ((5000000000000000000000000001 : ℚ) / 10 ^ 30) =
      1 / 100 := by
    norm_num [roundHalfEven2]
  have hcostval : Division.cost dbCx divCx = .ok (1 / 100) := by
    unfold Division.cost Division.enduser_cost
    rw [division_foldlM_ok dbCx divCx (fun s => EndUserService.cost dbCx s)
      (Division.enduserservice_set dbCx divCx) 0 h6]
    rw [hset, List.map_cons, List.map_nil, List.sum_cons, List.sum_nil, htuc,
      hcost]
    rw [show ((divCx.user_count : ℚ) / ((6 : ℕ) : ℚ)) = 1 / 6 by
      norm_num [divCx]]
    rw [hq16, hmx, hr2]
    norm_num
  have hspec : divisionCostSpec dbCx divCx = 0 := by
    unfold divisionCostSpec
    rw [hset, List.map_cons, List.map_nil, List.sum_cons, List.sum_nil, htuc,
      hcost]
    rw [show ((divCx.user_count : ℚ) / ((6 : ℕ) : ℚ)) = 1 / 6 by
      norm_num [divCx]]
    norm_num [roundHalfEven2]
  refine ⟨hcostval, hspec, ?_⟩
  rw [hcostval, hspec]
  intro hcontra
  norm_num at hcontra

theorem division_foldlM_err (db : DB) (d : DivisionR) (g : EndUserServiceR → ℚ) :
    ∀ (L : List EndUserServiceR) (acc : ℚ) (s0 : EndUserServiceR),
      s0 ∈ L → EndUserService.total_user_count db s0 = 0 →
      ∃ e, (e = PyError.divisionByZero ∨ e = PyError.invalidOperation) ∧
        L.foldlM (fun total s => do
            let q ← decimalDiv (d.user_count : ℚ)
              ((EndUserService.total_user_count db s : ℚ))
            pure (total + roundHalfEven2 (decimalMul q (g s)))) acc =
          .error e := by
  intro L
  induction L with
  | nil =>
      intro acc s0 hs0 _
      simp at hs0
  | cons s t ih =>
      intro acc s0 hs0 h0
      by_cases hz : (EndUserService.total_user_count db s : ℚ) = 0
      · -- the head service already divides by zero
        by_cases hu : (d.user_count : ℚ) = 0
        · refine ⟨PyError.invalidOperation, Or.inr rfl, ?_⟩
          rw [List.foldlM_cons]
          have : decimalDiv (d.user_count : ℚ)
              ((EndUserService.total_user_count db s : ℚ)) =
              .error PyError.invalidOperation := by
            unfold decimalDiv
            rw [if_pos hz, if_pos hu]
          rw [this]
          rfl
        · refine ⟨PyError.divisionByZero, Or.inl rfl, ?_⟩
          rw [List.foldlM_cons]
          have : decimalDiv (d.user_count : ℚ)
              ((EndUserService.total_user_count db s : ℚ)) =
              .error PyError.divisionByZero := by
            unfold decimalDiv
            rw [if_pos hz, if_neg hu]
          rw [this]
          rfl
      · have hs0t : s0 ∈ t := by
          rcases List.mem_cons.mp hs0 with rfl | hmem
          · exact absurd (by exact_mod_cast congrArg (Nat.cast : Nat → ℚ) h0) hz
          · exact hmem
        have hstep : decimalDiv (d.user_count : ℚ)
            ((EndUserService.total_user_count db s : ℚ)) =
            Except.ok (roundSig28 ((d.user_count : ℚ) /
              (EndUserService.total_user_count db s : ℚ))) := by
          unfold decimalDiv
          rw [if_neg hz]
        rw [List.foldlM_cons, hstep]
        show ∃ e, _ ∧ (t.foldlM _ _) = _
        exact ih _ s0 hs0t h0

/-- C6: a division linked to a service whose `total_user_count()` is zero
fails with a defined decimal error (`DivisionByZero`, or
`InvalidOperation` for the 0/0 case) in both `cost()` and
`cost_estimate()` — the unguarded `Decimal` division raises under the
default context rather than silently producing NaN or infinity. -/
theorem division_cost_zero_users_raises (db : DB) (d : DivisionR)
    (s0 : EndUserServiceR) (hs : s0 ∈ Division.enduserservice_set db d)
    (h0 : EndUserService.total_user_count db s0 = 0) :
    (∃ e, (e = PyError.divisionByZero ∨ e = PyError.invalidOperation) ∧
      Division.cost db d = .error e) ∧
    (∃ e, (e = PyError.divisionByZero ∨ e = PyError.invalidOperation) ∧
      Division.cost_estimate db d = .error e) := by
  constructor
  · unfold Division.cost Division.enduser_cost
    exact division_foldlM_err db d (fun s => EndUserService.cost db s)
      (Division.enduserservice_set db d) 0 s0 hs h0
  · unfold Division.cost_estimate Division.enduser_estimate
    exact division_foldlM_err db d (fun s => EndUserService.cost_estimate db s)
      (Division.enduserservice_set db d) 0 s0 hs h0

def divC6 : DivisionR := ⟨1, "d", 0, 0, 0⟩

def dbC6 : DB :=
  ⟨[], [], [], [divC6], [⟨3, "s"⟩], [(3, 1)], [], []⟩

theorem division_cost_zero_users_raises_witness :
    (⟨3, "s"⟩ : EndUserServiceR) ∈ Division.enduserservice_set dbC6 divC6 ∧
    EndUserService.total_user_count dbC6 ⟨3, "s"⟩ = 0 ∧
    ∃ e, (e = PyError.divisionByZero ∨ e = PyError.invalidOperation) ∧
      Division.cost dbC6 divC6 = .error e :=
  ⟨by decide, by decide,
   (division_cost_zero_users_raises dbC6 divC6 ⟨3, "s"⟩
     (by decide) (by decide)).1⟩

/-- C2: after any `Bill` save, every `EndUserCost` / `ITPlatformCost` row
of that bill in the resulting state carries derived fields recomputed from
the bill's just-saved values — no dependent cost row is left stale. -/
theorem bill_save_no_stale (db : DB) (b : BillR) :
    ∀ c ∈ (saveBill db b).costs, c.bill = b.id →
      (c.kind.isEndUser = true ∨ c.kind.isITPlatform = true) →
      c.cost = b.cost * c.percentage / 100 ∧
      c.cost_estimate = b.cost_estimate * c.percentage / 100 := by
  intro c hc hbill hkind
  unfold saveBill at hc
  dsimp only at hc
  have hb : findBill
      { db with bills := upsertBy (fun x => x.id) b db.bills } b.id = some b := by
    unfold findBill
    exact upsertBy_find (fun x => x.id) b db.bills
  obtain ⟨c0, rfl⟩ := post_save_mem_shape hb c hc hbill hkind
  rw [pre_save_eq]
  constructor <;> simp

def billC2 : BillR := ⟨1, 1, "b", 1, 100, 200, true⟩

def dbC2 : DB :=
  ⟨[], [billC2], [⟨5, "c", 1, 50, 1, 0, 0, CostKind.endUser 9⟩],
   [], [], [], [], []⟩

def costC2 : CostR := ⟨5, "c", 1, 50, 1, 50, 100, CostKind.endUser 9⟩

theorem bill_save_no_stale_witness :
    costC2 ∈ (saveBill dbC2 billC2).costs ∧
    costC2.cost = billC2.cost * costC2.percentage / 100 ∧
    costC2.cost_estimate = billC2.cost_estimate * costC2.percentage / 100 := by
  have hres : (saveBill dbC2 billC2).costs = [costC2] := by
    norm_num [saveBill, Bill.post_save, saveCost, findBill, upsertBy,
      pre_save_eq, dbC2, billC2, costC2, CostKind.isEndUser,
      CostKind.isITPlatform, List.find?, List.filter]
  have hmem : costC2 ∈ (saveBill dbC2 billC2).costs := by
    rw [hres]
    exact List.mem_singleton.mpr rfl
  have h := bill_save_no_stale dbC2 billC2 costC2 hmem rfl (Or.inl rfl)
  exact ⟨hmem, h.1, h.2⟩

theorem saveCost_ids (db : DB) (c : CostR)
    (h : c.id ∈ db.costs.map (fun x => x.id)) :
    (saveCost db c).costs.map (fun x => x.id) =
      db.costs.map (fun x => x.id) := by
  unfold saveCost
  cases hf : findBill db c.bill with
  | none => rfl
  | some b =>
      dsimp only
      apply upsertBy_map_id
      rcases List.mem_map.mp h with ⟨y, hy, hid⟩
      refine List.any_eq_true.mpr ⟨y, hy, ?_⟩
      show (y.id == (Cost.pre_save b c).id) = true
      rw [pre_save_id]
      exact beq_iff_eq.mpr hid

theorem foldl_saveCost_ids :
    ∀ (S : List CostR) (db : DB),
      (∀ c ∈ S, c.id ∈ db.costs.map (fun x => x.id)) →
      (S.foldl saveCost db).costs.map (fun x => x.id) =
        db.costs.map (fun x => x.id) := by
  intro S
  induction S with
  | nil =>
      intro db _
      rfl
  | cons c t ih =>
      intro db h
      rw [List.foldl_cons]
      have hids := saveCost_ids db c (h c (List.mem_cons_self c t))
      have hrest : ∀ c2 ∈ t, c2.id ∈ (saveCost db c).costs.map (fun x => x.id) := by
        intro c2 hc2
        rw [hids]
        exact h c2 (List.mem_cons_of_mem c hc2)
      rw [ih (saveCost db c) hrest, hids]

theorem post_save_bills (db : DB) (b : BillR) :
    (Bill.post_save db b).bills = db.bills := by
  unfold Bill.post_save
  dsimp only
  rw [foldl_saveCost_bills, foldl_saveCost_bills]

theorem post_save_ids (db : DB) (b : BillR) :
    (Bill.post_save db b).costs.map (fun x => x.id) =
      db.costs.map (fun x => x.id) := by
  unfold Bill.post_save
  dsimp only
  have h1 : ∀ c ∈ db.costs.filter (fun c => c.bill == b.id && c.kind.isEndUser),
      c.id ∈ db.costs.map (fun x => x.id) := by
    intro c hc
    exact List.mem_map.mpr ⟨c, (List.mem_filter.mp hc).1, rfl⟩
  have hids1 : ((db.costs.filter
        (fun c => c.bill == b.id && c.kind.isEndUser)).foldl
          saveCost db).costs.map (fun x => x.id) =
      db.costs.map (fun x => x.id) := foldl_saveCost_ids _ db h1
  have h2 : ∀ c ∈ ((db.costs.filter
        (fun c => c.bill == b.id && c.kind.isEndUser)).foldl
          saveCost db).costs.filter
            (fun c => c.bill == b.id && c.kind.isITPlatform),
      c.id ∈ ((db.costs.filter
        (fun c => c.bill == b.id && c.kind.isEndUser)).foldl
          saveCost db).costs.map (fun x => x.id) := by
    intro c hc
    exact List.mem_map.mpr ⟨c, (List.mem_filter.mp hc).1, rfl⟩
  rw [foldl_saveCost_ids _ _ h2, hids1]

theorem foldl_saveCost_fixpoint {b : BillR} :
    ∀ (S : List CostR) (db : DB),
      (∀ c ∈ S, findBill db c.bill = some b) →
      (∀ c ∈ S, Cost.pre_save b c = c) →
      (∀ c ∈ S, c ∈ db.costs) →
      (db.costs.map (fun x => x.id)).Nodup →
      S.foldl saveCost db = db := by
  intro S
  induction S with
  | nil =>
      intro db _ _ _ _
      rfl
  | cons c t ih =>
      intro db hfind hfix hmem hnd
      rw [List.foldl_cons]
      have hstep : saveCost db c = db := by
        unfold saveCost
        rw [hfind c (List.mem_cons_self c t)]
        dsimp only
        rw [hfix c (List.mem_cons_self c t),
          upsertBy_eq_self (hmem c (List.mem_cons_self c t)) hnd]
      rw [hstep]
      exact ih db (fun x hx => hfind x (List.mem_cons_of_mem c hx))
        (fun x hx => hfix x (List.mem_cons_of_mem c hx))
        (fun x hx => hmem x (List.mem_cons_of_mem c hx)) hnd

theorem post_save_stable (db : DB) (b : BillR)
    (hb : findBill db b.id = some b)
    (hnd : (db.costs.map (fun x => x.id)).Nodup)
    (hfix : ∀ c ∈ db.costs, c.bill = b.id →
      (c.kind.isEndUser = true ∨ c.kind.isITPlatform = true) →
      Cost.pre_save b c = c) :
    Bill.post_save db b = db := by
  unfold Bill.post_save
  dsimp only
  have hfold1 : (db.costs.filter
      (fun c => c.bill == b.id && c.kind.isEndUser)).foldl saveCost db = db := by
    apply foldl_saveCost_fixpoint
    · intro c hc
      have hp := (List.mem_filter.mp hc).2
      have hbill : c.bill = b.id := beq_iff_eq.mp ((Bool.and_eq_true _ _).mp hp).1
      rw [hbill]
      exact hb
    · intro c hc
      have hp := (List.mem_filter.mp hc).2
      exact hfix c (List.mem_filter.mp hc).1
        (beq_iff_eq.mp ((Bool.and_eq_true _ _).mp hp).1)
        (Or.inl ((Bool.and_eq_true _ _).mp hp).2)
    · intro c hc
      exact (List.mem_filter.mp hc).1
    · exact hnd
  rw [hfold1]
  apply foldl_saveCost_fixpoint
  · intro c hc
    have hp := (List.mem_filter.mp hc).2
    have hbill : c.bill = b.id := beq_iff_eq.mp ((Bool.and_eq_true _ _).mp hp).1
    rw [hbill]
    exact hb
  · intro c hc
    have hp := (List.mem_filter.mp hc).2
    exact hfix c (List.mem_filter.mp hc).1
      (beq_iff_eq.mp ((Bool.and_eq_true _ _).mp hp).1)
      (Or.inr ((Bool.and_eq_true _ _).mp hp).2)
  · intro c hc
    exact (List.mem_filter.mp hc).1
  · exact hnd

/-- C8: the recompute cascade is idempotent — `Cost.pre_save` run twice
from the same bill fields and percentage equals one run, and re-running a
bill's `post_save` cascade on the already-recomputed state changes
nothing. -/
theorem recompute_cascade_idempotent (db : DB) (b : BillR)
    (hb : findBill db b.id = some b)
    (hnd : (db.costs.map (fun x => x.id)).Nodup) :
    (∀ c : CostR, Cost.pre_save b (Cost.pre_save b c) = Cost.pre_save b c) ∧
    Bill.post_save (Bill.post_save db b) b = Bill.post_save db b := by
  have hps : ∀ c : CostR,
      Cost.pre_save b (Cost.pre_save b c) = Cost.pre_save b c := by
    intro c
    simp [pre_save_eq]
  refine ⟨hps, ?_⟩
  have hb2 : findBill (Bill.post_save db b) b.id = some b := by
    unfold findBill
    rw [post_save_bills]
    exact hb
  have hnd2 : ((Bill.post_save db b).costs.map (fun x => x.id)).Nodup := by
    rw [post_save_ids]
    exact hnd
  apply post_save_stable _ _ hb2 hnd2
  intro c hc hbill hkind
  obtain ⟨c0, rfl⟩ := post_save_mem_shape hb c hc hbill hkind
  exact hps c0

def billC8 : BillR := ⟨1, 1, "b", 1, 40, 80, true⟩

def dbC8 : DB :=
  ⟨[], [billC8],
   [⟨5, "c", 1, 25, 1, 0, 0, CostKind.endUser 9⟩,
    ⟨6, "c2", 1, 30, 1, 0, 0, CostKind.itPlatform 4⟩],
   [], [], [], [], []⟩

theorem recompute_cascade_idempotent_witness :
    Bill.post_save (Bill.post_save dbC8 billC8) billC8 =
      Bill.post_save dbC8 billC8 :=
  (recompute_cascade_idempotent dbC8 billC8 rfl (by decide)).2

end Recoup
